import Mathlib

/-!
# Benchmark targets of `dev-tools/mage/benchmark.go`

A shallow embedding of the two mage targets `Benchmark.Run` and `Benchmark.Diff`
and of the helper `runCommand`, together with the parts of the Go standard
library they call (`strconv.Atoi`, `fmt.Sprintf` with `%d`, `strings.Split`,
`strings.Join`, `filepath.Clean`, `filepath.Join`, `filepath.Dir`), followed by
the properties of the written specification that were checked against them.

Conventions of the embedding:

* Go strings are lists of characters.  Every character the code inspects
  (space, `/`, `.`, `+`, `-`, the decimal digits) is ASCII, so for valid UTF-8
  the byte-wise Go functions and the character-wise models agree.
* Go `int` is the 64-bit `int` of the platforms the targets run on; values are
  integers and the range checks of `strconv` are explicit.
* The package-global `benchmarkCount` is threaded through as explicit state.
* The collaborators outside this file (the tool installer, the package lister,
  the file system and the child process) are the fields of `World`; every call
  to one of them is recorded in a trace of `Event`s.
* `mg.Deps(Benchmark.Deps)` runs `Benchmark.Deps` and panics when it returns an
  error; a call that ends so has the outcome `panicked`.
* `filepath` is the Unix implementation (separator `/`, no volume names).
-/

namespace Mage

/-- Go strings, as sequences of characters. -/
abbrev GoStr := List Char

/-! ## `strconv` -/

/-- The two sentinel errors of `strconv`: `invalid` is `strconv.ErrSyntax`,
`outOfRange` is `strconv.ErrRange`. -/
inductive NumErr where
  | invalid
  | outOfRange
deriving DecidableEq, Repr

/-- Go errors that occur in this file. `numError` is `*strconv.NumError`,
`exitError` is `*exec.ExitError`, `other` is any other error value of a
collaborator, `errorf` is `fmt.Errorf` with a final `%w` verb wrapping a non-nil
error (`text` is the formatted text in front of it), `errorfNil` the same with
a nil operand, and `plain` is `fmt.Errorf` without `%w`. -/
inductive GoError where
  | numError (fn : String) (num : GoStr) (kind : NumErr)
  | exitError (code : Nat)
  | other (msg : String)
  | errorf (text : GoStr) (wrapped : GoError)
  | errorfNil (text : GoStr)
  | plain (text : GoStr)
deriving DecidableEq, Repr

/-- The value of `strconv.IntSize` (and the width of `int`). -/
def intSize : Nat := 64

/-- The value of `maxUint64`. -/
def maxUint64 : Nat := 2 ^ 64 - 1

/-- Conversion `int64(x)` with wrap-around. -/
def toInt64 (x : Int) : Int := (x + 2 ^ 63) % 2 ^ 64 - 2 ^ 63

/-- The byte-wise `lower(c)` of `strconv`: `c | ('x' - 'X')`. -/
def lower (c : Char) : Nat := c.toNat ||| ('x'.toNat - 'X'.toNat)

/-- The digit value `strconv.ParseUint` assigns to a character: `none` is the
`default` branch of its switch (a syntax error). -/
def digitVal (c : Char) : Option Nat :=
  if '0'.toNat ≤ c.toNat ∧ c.toNat ≤ '9'.toNat then some (c.toNat - '0'.toNat)
  else if 'a'.toNat ≤ lower c ∧ lower c ≤ 'z'.toNat then some (lower c - 'a'.toNat + 10)
  else none

/-- The digit loop of `strconv.ParseUint(s, 10, 0)`: `n` is the value read so
far, `cutoff` is `maxUint64/10 + 1` and `maxVal` is `2^64 - 1`. -/
def parseUintLoop : List Char → Nat → Nat × Option NumErr
  | [], n => (n, none)
  | c :: cs, n =>
    match digitVal c with
    | none => (0, some .invalid)
    | some d =>
      if d ≥ 10 then (0, some .invalid)
      else if n ≥ maxUint64 / 10 + 1 then (maxUint64, some .outOfRange)
      else
        let n10 := (n * 10) % 2 ^ 64
        let n1 := (n10 + d) % 2 ^ 64
        if n1 < n10 ∨ n1 > maxUint64 then (maxUint64, some .outOfRange)
        else parseUintLoop cs n1

/-- The model of `strconv.ParseUint(s, 10, 0)`. -/
def ParseUint (s : GoStr) : Nat × Option NumErr :=
  if s = [] then (0, some .invalid) else parseUintLoop s 0

/-- The model of `strconv.ParseInt(s, 10, 0)`. -/
def ParseInt (s : GoStr) : Int × Option NumErr :=
  match s with
  | [] => (0, some .invalid)
  | c :: cs =>
    let neg := c = '-'
    let s1 := if c = '+' ∨ c = '-' then cs else c :: cs
    match ParseUint s1 with
    | (_, some .invalid) => (0, some .invalid)
    | (un, _) =>
      let cutoff : Nat := 2 ^ (intSize - 1)
      if ¬ neg ∧ un ≥ cutoff then (((cutoff - 1 : Nat) : Int), some .outOfRange)
      else if neg ∧ un > cutoff then (-(cutoff : Int), some .outOfRange)
      else
        let n := toInt64 un
        (if neg then toInt64 (-n) else n, none)

/-- The model of `strconv.Atoi`, which is documented as equivalent to
`ParseInt(s, 10, 0)` converted to `int`; the error is a `*NumError` for the
function `Atoi` and the input. The value is returned next to the error, as in
Go. -/
def Atoi (s : GoStr) : Int × Option GoError :=
  match ParseInt s with
  | (i64, none) => (i64, none)
  | (i64, some k) => (i64, some (.numError "Atoi" s k))

/-! ## `fmt` -/

/-- The decimal digit `'0' + d`. -/
def digitChar (d : Nat) : Char := Char.ofNat ('0'.toNat + d)

/-- The digit loop of `fmt`'s integer formatting in base 10, writing the digits
of `u` in front of `acc`; the first argument bounds the number of
iterations. -/
def fmtDigits : Nat → Nat → List Char → List Char
  | 0, u, acc => digitChar (u % 10) :: acc
  | fuel + 1, u, acc =>
    if u ≥ 10 then fmtDigits fuel (u / 10) (digitChar (u - (u / 10) * 10) :: acc)
    else digitChar u :: acc

/-- The decimal text of a natural number. -/
def fmtNat (u : Nat) : GoStr := fmtDigits u u []

/-- The text `fmt.Sprintf("%d", n)` produces for an `int`. -/
def fmtInt (n : Int) : GoStr :=
  if n < 0 then '-' :: fmtNat n.natAbs else fmtNat n.natAbs

/-! ## `strings` -/

/-- The loop of `strings.Split` for a non-empty separator: `skip` counts the
characters of a separator just found that are still to be passed over, `cur` is
the current field, reversed. -/
def splitAux (sep : GoStr) : Nat → GoStr → GoStr → List GoStr
  | _, cur, [] => [cur.reverse]
  | skip + 1, cur, _ :: cs => splitAux sep skip cur cs
  | 0, cur, c :: cs =>
    if sep.isPrefixOf (c :: cs) then cur.reverse :: splitAux sep (sep.length - 1) [] cs
    else splitAux sep 0 (c :: cur) cs

/-- The model of `strings.Split(s, sep)`: the fields between the
non-overlapping occurrences of `sep`, found left to right; with an empty
separator the string is exploded into its characters. -/
def Split (s sep : GoStr) : List GoStr :=
  if sep = [] then s.map (fun c => [c]) else splitAux sep 0 [] s

/-- The model of `strings.Join(elems, sep)`. -/
def stringsJoin : List GoStr → GoStr → GoStr
  | [], _ => []
  | [e], _ => e
  | e :: es, sep => e ++ sep ++ stringsJoin es sep

/-! ## `path/filepath` (Unix) -/

/-- The model of `os.IsPathSeparator` on Unix. -/
def isPathSeparator (c : Char) : Bool := c == '/'

/-- The look-ahead test of `filepath.Clean` on the unread part `path[i:]`:
`i == n || os.IsPathSeparator(path[i])`. -/
def endOrSeparator : List Char → Bool
  | [] => true
  | c :: _ => isPathSeparator c

/-- The inner loop of the `..` case of `filepath.Clean`, on the reversed output
buffer: `removed` is the character at index `out.w` (the one dropped last);
characters are dropped while `out.w > dotdot` and that character is not a
separator. -/
def backtrack (dotdot : Nat) : Char → List Char → List Char
  | _, [] => []
  | removed, c :: rest =>
    if (c :: rest).length > dotdot ∧ ¬ isPathSeparator removed then backtrack dotdot c rest
    else c :: rest

/-- The main loop of `filepath.Clean`. The second argument is the unread part
`path[r:]`, `out` is the output buffer reversed (so `out.w` is `out.length`) and
`dotdot` the index where `..` must stop; each unit of the first argument pays
for one iteration of the loop. The result is the final buffer, reversed. -/
def cleanLoop (rooted : Bool) : Nat → List Char → List Char → Nat → List Char
  | 0, _, out, _ => out
  | _ + 1, [], out, _ => out
  | fuel + 1, c :: rest, out, dotdot =>
    if isPathSeparator c then
      -- empty path element
      cleanLoop rooted fuel rest out dotdot
    else if c = '.' ∧ endOrSeparator rest then
      -- . element
      cleanLoop rooted fuel rest out dotdot
    else if c = '.' ∧ rest.head? = some '.' ∧ endOrSeparator rest.tail then
      -- .. element: remove to last separator
      if out.length > dotdot then
        cleanLoop rooted fuel rest.tail (backtrack dotdot (out.headD '/') out.tail) dotdot
      else if ¬ rooted then
        let out1 := if out.length > 0 then '/' :: out else out
        cleanLoop rooted fuel rest.tail ('.' :: '.' :: out1) (out1.length + 2)
      else
        cleanLoop rooted fuel rest.tail out dotdot
    else
      -- real path element: add slash if needed, then copy the element
      let out1 :=
        if (rooted ∧ out.length ≠ 1) ∨ (¬ rooted ∧ out.length ≠ 0) then '/' :: out else out
      let elem := (c :: rest).takeWhile (fun x => !isPathSeparator x)
      cleanLoop rooted fuel ((c :: rest).dropWhile (fun x => !isPathSeparator x))
        (elem.reverse ++ out1) dotdot

/-- The model of `filepath.Clean` on Unix. The loop runs at most once per
character of the path, which is the bound it is given. -/
def Clean (path : GoStr) : GoStr :=
  match path with
  | [] => ['.']
  | c :: rest =>
    let rooted : Bool := isPathSeparator c
    let out :=
      if rooted then cleanLoop rooted (c :: rest).length rest ['/'] 1
      else cleanLoop rooted (c :: rest).length (c :: rest) [] 0
    -- Turn empty string into "."
    if out.length = 0 then ['.'] else out.reverse

/-- The model of `filepath.Join` on Unix: the elements from the first non-empty
one on are joined with the separator and the result is cleaned; when all
elements are empty the result is empty. -/
def Join : List GoStr → GoStr
  | [] => []
  | e :: es => if e ≠ [] then Clean (stringsJoin (e :: es) ['/']) else Join es

/-- The part of `path` up to and including its last separator (`path[:i+1]`
after the backward scan of `filepath.Dir`). -/
def dirPart (path : GoStr) : GoStr :=
  ((path.reverse).dropWhile (fun x => !isPathSeparator x)).reverse

/-- The model of `filepath.Dir` on Unix. -/
def Dir (path : GoStr) : GoStr := Clean (dirPart path)

/-! ## The environment, the collaborators and what is observed -/

/-- The environment variables the targets read; `os.Getenv` gives the empty
string for a variable that is not set. -/
structure Env where
  OUTPUT : GoStr
  BENCH_COUNT : GoStr
  BASE : GoStr
  NEXT : GoStr

/-- The collaborators of the targets: `install` is the result of
`gotool.Install` for a package, `listPackages` the result of
`gotool.ListProjectPackages`, `mkdirAll` and `create` the results of
`os.MkdirAll` and `os.Create`, `run` the result of `exec.Cmd.Run` for a command
and its arguments, and `close` the result of closing the output file. -/
structure World where
  install : GoStr → Option GoError
  listPackages : Except GoError (List GoStr)
  mkdirAll : GoStr → Option GoError
  create : GoStr → Option GoError
  run : GoStr → List GoStr → Option GoError
  close : GoStr → Option GoError

/-- The observable steps of a target, in the order they happen. `exec` is the
call `c.Run()` that spawns the child process, with the variables appended to
the inherited environment and the file its output is duplicated to. -/
inductive Event where
  | deps
  | stdout (line : GoStr)
  | log (line : GoStr)
  | listPackages
  | runCommand (cmd outputFile : GoStr) (args : List GoStr)
  | mkdirAll (dir : GoStr)
  | create (path : GoStr)
  | exec (cmd : GoStr) (args : List GoStr) (env : List GoStr) (file : Option GoStr)
  | close (path : GoStr)
deriving DecidableEq, Repr

/-- How a call ends: it returns an error value (`none` is `nil`), it panics
(`mg.Deps` when `Benchmark.Deps` returns an error), or the process is halted by
`log.Fatalf`. -/
inductive Outcome where
  | returned (err : Option GoError)
  | panicked (err : GoError)
  | fatal
deriving DecidableEq, Repr

/-- The result of `runCommand` and of `Benchmark.Diff`. -/
structure Result where
  outcome : Outcome
  trace : List Event
deriving DecidableEq, Repr

/-- The result of `Benchmark.Run`: also the value of the package-global
`benchmarkCount` afterwards. -/
structure RunResult where
  outcome : Outcome
  benchmarkCount : Int
  trace : List Event
deriving DecidableEq, Repr

/-- The initial value of the package-global `benchmarkCount`. -/
def initialBenchmarkCount : Int := 8

/-- The model of `errors.As(err, &goTestErr)` for a target of type
`*exec.ExitError`: whether the chain of `err` holds an exit error. -/
def GoError.asExitError : GoError → Bool
  | .exitError _ => true
  | .errorf _ e => e.asExitError
  | _ => false

/-- The model of `fmt.Errorf(text + "%w", err)` for a possibly nil `err`. -/
def errorfW (text : GoStr) : Option GoError → GoError
  | some e => .errorf text e
  | none => .errorfNil text

/-- The test `e.wraps inner`: whether `inner` is on the `Unwrap` chain of `e`,
below `e` itself. -/
def GoError.wraps : GoError → GoError → Bool
  | .errorf _ e, inner => e = inner || e.wraps inner
  | _, _ => false

/-! ## `benchmark.go` -/

/-- The constant `goBenchstat`: the package of benchstat, at its pinned
version. -/
def goBenchstat : GoStr :=
  "golang.org/x/perf/cmd/benchstat@v0.0.0-20230227161431-f7320a6d63e8".toList

/-- The model of `Benchmark.Deps`. -/
def Deps (w : World) : Option GoError :=
  match w.install goBenchstat with
  | some err => some err
  | none => none

/-- The model of `createDir`: creates the parent directory of `file` unless it
is `.`; `none` is the halt by `log.Fatalf` when that fails. -/
def createDir (w : World) (file : GoStr) : Option GoStr × List Event :=
  let dir := Dir file
  if dir ≠ ['.'] then
    match w.mkdirAll dir with
    | some _ =>
      (none, [.mkdirAll dir, .log ("Failed to create parent dir for ".toList ++ file)])
    | none => (some file, [.mkdirAll dir])
  else (some file, [])

/-- The model of `runCommand`; `env` is the map of extra variables, as a list
of pairs. -/
def runCommand (w : World) (env : List (GoStr × GoStr)) (cmd outputFile : GoStr)
    (args : List GoStr) : Result :=
  let cEnv := env.map (fun kv => kv.1 ++ "=".toList ++ kv.2)
  let line := "exec: ".toList ++ cmd ++ " ".toList ++ stringsJoin args " ".toList
  if outputFile ≠ [] then
    match createDir w outputFile with
    | (none, t) => ⟨.fatal, t⟩
    | (some file, t) =>
      match w.create file with
      | some err =>
        ⟨.returned (some (.errorf ("failed to create ".toList ++ cmd ++ " output file: ".toList) err)),
          t ++ [.create file]⟩
      | none =>
        let t1 := t ++ [.create file, .log line, .stdout line, .exec cmd args cEnv (some file),
          .close file]
        let exitCode := w.run cmd args
        match w.close file with
        | some _ => ⟨.fatal, t1 ++ [.log ("Failed to close file ".toList)]⟩
        | none => ⟨.returned exitCode, t1⟩
  else
    ⟨.returned (w.run cmd args), [.log line, .stdout line, .exec cmd args cEnv none]⟩

/-- The model of `Benchmark.Run`, from the value of the package-global
`benchmarkCount` before the call. -/
def Run (w : World) (env : Env) (benchmarkCount : Int) : RunResult :=
  match Deps w with
  | some e => ⟨.panicked e, benchmarkCount, [.deps]⟩
  | none =>
    let t0 := [Event.deps, .stdout ">> go Test: Benchmark".toList]
    let outputFile := env.OUTPUT
    let benchmarkCountOverride := env.BENCH_COUNT
    let assigned : Int × Option GoError :=
      if benchmarkCountOverride ≠ [] then Atoi benchmarkCountOverride
      else (benchmarkCount, none)
    match assigned with
    | (benchmarkCount, some overrideErr) =>
      ⟨.returned (some (.errorf
          "failed to parse BENCH_COUNT, verify that you set the right value: , ".toList
          overrideErr)),
        benchmarkCount, t0⟩
    | (benchmarkCount, none) =>
      match w.listPackages with
      | .error er =>
        ⟨.returned (some (.errorf "failed to list package dependencies: ".toList er)),
          benchmarkCount, t0 ++ [.listPackages]⟩
      | .ok projectPackages =>
        let cmdArg := "test -count=".toList ++ fmtInt benchmarkCount ++
          " -bench=Bench -run=Bench".toList
        let cmdArgs := Split cmdArg " ".toList ++
          projectPackages.map (fun pkg => Join [pkg, "/...".toList])
        let r := runCommand w [] "go".toList outputFile cmdArgs
        let t := t0 ++ [.listPackages, .runCommand "go".toList outputFile cmdArgs] ++ r.trace
        match r.outcome with
        | .returned err =>
          let goTestErr : Option GoError := none
          if goTestErr = none then ⟨.returned none, benchmarkCount, t⟩
          else if (err.map GoError.asExitError).getD false then
            ⟨.returned (some (errorfW "failed to execute go test -bench command: ".toList err)),
              benchmarkCount, t⟩
          else
            ⟨.returned (some (errorfW "failed to execute go test -bench command ".toList err)),
              benchmarkCount, t⟩
        | o => ⟨o, benchmarkCount, t⟩

/-- The model of `Benchmark.Diff`. -/
def Diff (w : World) (env : Env) : Result :=
  match Deps w with
  | some e => ⟨.panicked e, [.deps]⟩
  | none =>
    let t0 := [Event.deps, .stdout ">> running: benchstat".toList]
    let outputFile := env.OUTPUT
    let baseFile := env.BASE
    let nextFile := env.NEXT
    let args : List GoStr := []
    if baseFile = [] then
      ⟨.returned (some (.plain ("missing required parameter BASE parameter to parse the results. " ++
          "Please set this to a filepath of the benchmark results").toList)),
        t0 ++ [.log ("Missing required parameter BASE parameter to parse the results. " ++
          "Please set this to a filepath of the benchmark results").toList]⟩
    else
      let args := args ++ [baseFile]
      let step : List GoStr × List Event :=
        if nextFile = [] then
          (args, [.log "Missing NEXT parameter, we are not going to compare results".toList])
        else (args ++ [nextFile], [])
      let args := step.1
      let r := runCommand w [] "benchstat".toList outputFile args
      let t := t0 ++ step.2 ++ [.runCommand "benchstat".toList outputFile args] ++ r.trace
      match r.outcome with
      | .returned err =>
        let goTestErr : Option GoError := none
        if goTestErr = none then ⟨.returned none, t⟩
        else if (err.map GoError.asExitError).getD false then
          ⟨.returned (some (errorfW "failed to execute benchstat command: ".toList err)), t⟩
        else
          ⟨.returned (some (errorfW "failed to execute benchstat command!! ".toList err)), t⟩
      | o => ⟨o, t⟩

/-! ## Observations on a trace -/

/-- The calls of `runCommand` in a trace: command, output file and arguments. -/
def runCommandCalls : List Event → List (GoStr × GoStr × List GoStr)
  | [] => []
  | .runCommand cmd outputFile args :: t => (cmd, outputFile, args) :: runCommandCalls t
  | _ :: t => runCommandCalls t

/-- The argument lists passed to `runCommand` in a trace. -/
def passedArgs (t : List Event) : List (List GoStr) :=
  (runCommandCalls t).map (fun c => c.2.2)

/-- Whether the package lister was called in a trace. -/
def listerCalled : List Event → Bool
  | [] => false
  | .listPackages :: _ => true
  | _ :: t => listerCalled t

/-- The child processes spawned in a trace: command and arguments. -/
def spawned : List Event → List (GoStr × List GoStr)
  | [] => []
  | .exec cmd args _ _ :: t => (cmd, args) :: spawned t
  | _ :: t => spawned t

/-! ## Auxiliary definitions for the statements -/

/-- The count `Benchmark.Run` settles on (lines 44-51): the pair assigned to
`benchmarkCount` and `overrideErr`. -/
def resolveCount (env : Env) (benchmarkCount : Int) : Int × Option GoError :=
  if env.BENCH_COUNT ≠ [] then Atoi env.BENCH_COUNT else (benchmarkCount, none)

/-- The argument list `Benchmark.Run` builds for a count and a package list. -/
def runArgs (count : Int) (pkgs : List GoStr) : List GoStr :=
  Split ("test -count=".toList ++ fmtInt count ++ " -bench=Bench -run=Bench".toList) " ".toList ++
    pkgs.map (fun pkg => Join [pkg, "/...".toList])

/-- The suffix `Benchmark.Run` makes `filepath.Join` clean behind a non-empty
package path: the separator of `Join` and the element `/...`. -/
def wildcardTail : GoStr := "//...".toList

/-- The output buffer (reversed) after `filepath.Clean` has read the wildcard
suffix, from the buffer `out` it had in front of it. -/
def afterWildcard (rooted : Bool) (out : List Char) : List Char :=
  '.' :: '.' :: '.' ::
    (if (rooted ∧ out.length ≠ 1) ∨ (¬ rooted ∧ out.length ≠ 0) then '/' :: out else out)

/-- The output buffer (reversed) `filepath.Clean` ends its loop with on the
path `c :: rest`. -/
def cleanBuffer (c : Char) (rest : List Char) : List Char :=
  if isPathSeparator c then cleanLoop true (c :: rest).length rest ['/'] 1
  else cleanLoop false (c :: rest).length (c :: rest) [] 0

/-- A world in which every collaborator succeeds and the lister returns
`pkgs`. -/
def quietWorld (pkgs : List GoStr) : World :=
  ⟨fun _ => none, .ok pkgs, fun _ => none, fun _ => none, fun _ _ => none, fun _ => none⟩

/-- A world in which every collaborator succeeds except the child process,
which exits with status 1. -/
def failingWorld : World :=
  ⟨fun _ => none, .ok ["example.com/mod/pkg".toList], fun _ => none, fun _ => none,
    fun _ _ => some (.exitError 1), fun _ => none⟩

/-- The environment with no variable set. -/
def emptyEnv : Env := ⟨[], [], [], []⟩

/-- The text in front of the parse error in the configuration error of
`Benchmark.Run`. -/
def parseErrorText : GoStr :=
  "failed to parse BENCH_COUNT, verify that you set the right value: , ".toList

/-- The four fixed arguments of `go test` for the text of a count. -/
def fixedArgs (count : GoStr) : List GoStr :=
  ["test".toList, "-count=".toList ++ count, "-bench=Bench".toList, "-run=Bench".toList]

/-- The value of `benchmarkCount` after a sequence of invocations of
`Benchmark.Run`, each with its own collaborators and environment. -/
def countAfter : List (World × Env) → Int → Int
  | [], c => c
  | (w, env) :: rest, c => countAfter rest (Run w env c).benchmarkCount

/-- The error `Benchmark.Diff` returns when `BASE` is not set. -/
def missingBaseError : GoError :=
  .plain ("missing required parameter BASE parameter to parse the results. " ++
    "Please set this to a filepath of the benchmark results").toList

/-- Whether a character is one of the decimal digits `0` to `9`. -/
def isDecimalDigit (c : Char) : Bool :=
  decide ('0'.toNat ≤ c.toNat ∧ c.toNat ≤ '9'.toNat)

/-- Whether a string is written as an integer: an optional sign `+` or `-`
followed by one or more decimal digits. -/
def isDecimalLiteral (s : GoStr) : Bool :=
  match s with
  | [] => false
  | c :: cs =>
    let body := if c = '+' ∨ c = '-' then cs else c :: cs
    !body.isEmpty && body.all isDecimalDigit

/-! ## The shape of the results of `runCommand` and `Benchmark.Run` -/

theorem runCommandCalls_append (a b : List Event) :
    runCommandCalls (a ++ b) = runCommandCalls a ++ runCommandCalls b := by
  induction a with
  | nil => rfl
  | cons e a ih => cases e <;> simp [runCommandCalls, ih]

theorem createDir_calls (w : World) (file : GoStr) :
    runCommandCalls (createDir w file).2 = [] := by
  unfold createDir
  by_cases h : Dir file = ['.']
  · simp [h, runCommandCalls]
  · cases hm : w.mkdirAll (Dir file) <;> simp [h, hm, runCommandCalls]

theorem runCommand_trace_calls (w : World) (env : List (GoStr × GoStr)) (cmd o : GoStr)
    (args : List GoStr) : runCommandCalls (runCommand w env cmd o args).trace = [] := by
  have hd := createDir_calls w o
  unfold runCommand
  by_cases ho : o = []
  · simp [ho, runCommandCalls]
  · rcases hcd : createDir w o with ⟨_ | file, t⟩
    · rw [hcd] at hd
      simpa [ho, hcd] using hd
    · rw [hcd] at hd
      cases hcr : w.create file
      · cases hcl : w.close file <;>
          simp [ho, hcd, hcr, hcl, runCommandCalls_append, runCommandCalls] <;> exact hd
      · simp [ho, hcd, hcr, runCommandCalls_append, runCommandCalls]; exact hd

theorem runCommand_outcome (w : World) (env : List (GoStr × GoStr)) (cmd o : GoStr)
    (args : List GoStr) :
    (∃ err, (runCommand w env cmd o args).outcome = .returned err) ∨
      (runCommand w env cmd o args).outcome = .fatal := by
  unfold runCommand
  by_cases ho : o = []
  · simp [ho]
  · rcases hcd : createDir w o with ⟨_ | file, t⟩
    · simp [ho, hcd]
    · cases hcr : w.create file
      · cases hcl : w.close file <;> simp [ho, hcd, hcr, hcl]
      · simp [ho, hcd, hcr]

theorem Run_deps_failed (w : World) (env : Env) (c : Int) (e : GoError) (hd : Deps w = some e) :
    Run w env c = ⟨.panicked e, c, [.deps]⟩ := by
  simp [Run, hd]

theorem Run_count_error (w : World) (env : Env) (c n : Int) (e : GoError) (hd : Deps w = none)
    (hc : resolveCount env c = (n, some e)) :
    Run w env c = ⟨.returned (some (.errorf
          "failed to parse BENCH_COUNT, verify that you set the right value: , ".toList e)), n,
        [.deps, .stdout ">> go Test: Benchmark".toList]⟩ := by
  unfold resolveCount at hc
  simp only [Run, hd, hc]

theorem Run_list_error (w : World) (env : Env) (c n : Int) (er : GoError) (hd : Deps w = none)
    (hc : resolveCount env c = (n, none)) (hl : w.listPackages = .error er) :
    Run w env c = ⟨.returned (some (.errorf "failed to list package dependencies: ".toList er)), n,
        [.deps, .stdout ">> go Test: Benchmark".toList, .listPackages]⟩ := by
  unfold resolveCount at hc
  simp only [Run, hd, hc, hl]
  rfl

theorem Run_ok (w : World) (env : Env) (c n : Int) (pkgs : List GoStr) (hd : Deps w = none)
    (hc : resolveCount env c = (n, none)) (hl : w.listPackages = .ok pkgs) :
    (Run w env c).benchmarkCount = n ∧
    runCommandCalls (Run w env c).trace = [("go".toList, env.OUTPUT, runArgs n pkgs)] ∧
    ((Run w env c).outcome = .returned none ∨ (Run w env c).outcome = .fatal) := by
  unfold resolveCount at hc
  simp only [Run, hd, hc, hl]
  have ht := runCommand_trace_calls w [] "go".toList env.OUTPUT (runArgs n pkgs)
  have ho := runCommand_outcome w [] "go".toList env.OUTPUT (runArgs n pkgs)
  unfold runArgs at ht ho
  rcases ho with ⟨err, ho⟩ | ho
  · simp only [ho, runCommandCalls_append, runCommandCalls, ht, runArgs, if_true,
      List.append_nil, List.nil_append, true_or, and_self]
  · simp only [ho, runCommandCalls_append, runCommandCalls, ht, runArgs,
      List.append_nil, List.nil_append, or_true, and_self]

/-- With an empty output path `runCommand` creates no directory and no file:
it announces the command, runs it with the console streams only and returns the
result of `c.Run()`. -/
theorem runCommand_without_output_file (w : World) (env : List (GoStr × GoStr)) (cmd : GoStr)
    (args : List GoStr) :
    runCommand w env cmd [] args =
      ⟨.returned (w.run cmd args),
        [.log ("exec: ".toList ++ cmd ++ " ".toList ++ stringsJoin args " ".toList),
          .stdout ("exec: ".toList ++ cmd ++ " ".toList ++ stringsJoin args " ".toList),
          .exec cmd args (env.map (fun kv => kv.1 ++ "=".toList ++ kv.2)) none]⟩ := by
  rfl

theorem spawned_append (a b : List Event) : spawned (a ++ b) = spawned a ++ spawned b := by
  induction a with
  | nil => rfl
  | cons e a ih => cases e <;> simp [spawned, ih]

/-- When the output file cannot be created `runCommand` returns the wrapped
error of `os.Create` and spawns no process. -/
theorem runCommand_create_failed (w : World) (env : List (GoStr × GoStr)) (cmd o : GoStr)
    (args : List GoStr) (t : List Event) (err : GoError) (ho : o ≠ [])
    (hdir : createDir w o = (some o, t)) (hc : w.create o = some err) :
    (runCommand w env cmd o args).outcome =
      .returned (some (.errorf ("failed to create ".toList ++ cmd ++ " output file: ".toList) err)) ∧
    spawned (runCommand w env cmd o args).trace = spawned t := by
  unfold runCommand
  simp only [ho, hdir, hc, ne_eq, not_false_eq_true, if_true, true_and]
  rw [spawned_append]
  exact List.append_nil _

/-- Whenever `Benchmark.Run` has called `runCommand`, it returns nil or the
process was halted: no error of `runCommand` is ever returned. -/
theorem Run_outcome_after_runCommand (w : World) (env : Env) (c : Int)
    (h : runCommandCalls (Run w env c).trace ≠ []) :
    (Run w env c).outcome = .returned none ∨ (Run w env c).outcome = .fatal := by
  cases hd : Deps w with
  | some e =>
    rw [Run_deps_failed w env c e hd] at h
    exact absurd rfl h
  | none =>
    rcases hr : resolveCount env c with ⟨n, _ | e⟩
    · cases hl : w.listPackages with
      | error er =>
        rw [Run_list_error w env c n er hd hr hl] at h
        exact absurd rfl h
      | ok pkgs => exact (Run_ok w env c n pkgs hd hr hl).2.2
    · rw [Run_count_error w env c n e hd hr] at h
      exact absurd rfl h

/-! ## Decimal text: `fmt` against `strconv` -/

theorem digitVal_digitChar (d : Nat) (h : d < 10) : digitVal (digitChar d) = some d := by
  interval_cases d <;> rfl

theorem digitChar_ne_space (d : Nat) (h : d < 10) : digitChar d ≠ ' ' := by
  interval_cases d <;> decide

theorem digitChar_ne_signs (d : Nat) (h : d < 10) : digitChar d ≠ '+' ∧ digitChar d ≠ '-' := by
  interval_cases d <;> decide

theorem fmtDigits_acc (fuel u : Nat) (acc : List Char) :
    fmtDigits fuel u acc = fmtDigits fuel u [] ++ acc := by
  induction fuel generalizing u acc with
  | zero => simp [fmtDigits]
  | succ fuel ih =>
    unfold fmtDigits
    split_ifs
    · rw [ih, ih (u / 10) [_]]; simp
    · simp

theorem fmtDigits_fuel (fuel u : Nat) (h : u ≤ fuel) :
    fmtDigits fuel u [] = fmtDigits u u [] := by
  induction u using Nat.strong_induction_on generalizing fuel with
  | _ u ih =>
    cases fuel with
    | zero =>
      have : u = 0 := by omega
      subst this; rfl
    | succ fuel =>
      cases u with
      | zero => rfl
      | succ u =>
        unfold fmtDigits
        split_ifs with h10
        · rw [fmtDigits_acc fuel, fmtDigits_acc u]
          rw [ih ((u + 1) / 10) (by omega) fuel (by omega), ih ((u + 1) / 10) (by omega) u (by omega)]
        · rfl

theorem fmtNat_lt (u : Nat) (h : u < 10) : fmtNat u = [digitChar u] := by
  unfold fmtNat
  cases u with
  | zero => rfl
  | succ u => unfold fmtDigits; simp; omega

theorem fmtNat_ge (u : Nat) (h : 10 ≤ u) :
    fmtNat u = fmtNat (u / 10) ++ [digitChar (u % 10)] := by
  unfold fmtNat
  cases u with
  | zero => omega
  | succ u =>
    rw [fmtDigits]
    simp only [ge_iff_le, h, if_true]
    rw [fmtDigits_acc, fmtDigits_fuel u ((u + 1) / 10) (by omega)]
    congr 3
    omega


theorem parseUintLoop_append (xs ys : List Char) (n m : Nat)
    (h : parseUintLoop xs n = (m, none)) :
    parseUintLoop (xs ++ ys) n = parseUintLoop ys m := by
  induction xs generalizing n with
  | nil =>
    simp only [parseUintLoop, Prod.mk.injEq, and_true] at h
    subst h; rfl
  | cons c cs ih =>
    rw [List.cons_append, parseUintLoop]
    rw [parseUintLoop] at h
    cases hd : digitVal c with
    | none => simp [hd] at h
    | some d =>
      simp only [hd] at h ⊢
      split_ifs at h ⊢ with h1 h2 h3
      · simp at h
      · simp at h
      · simp at h
      · exact ih _ h

theorem parseUintLoop_digit (d n : Nat) (hd : d < 10) (hn : n * 10 + d < 2 ^ 64) :
    parseUintLoop [digitChar d] n = (n * 10 + d, none) := by
  unfold parseUintLoop
  simp only [digitVal_digitChar d hd]
  have h1 : ¬ d ≥ 10 := by omega
  have h2 : ¬ n ≥ maxUint64 / 10 + 1 := by
    unfold maxUint64; omega
  have h3 : n * 10 % 2 ^ 64 = n * 10 := Nat.mod_eq_of_lt (by omega)
  have h4 : (n * 10 + d) % 2 ^ 64 = n * 10 + d := Nat.mod_eq_of_lt hn
  simp only [h1, h2, if_false, h3, h4]
  have h5 : ¬ (n * 10 + d < n * 10 ∨ n * 10 + d > maxUint64) := by
    unfold maxUint64; omega
  simp only [h5, if_false, parseUintLoop]

theorem parseUintLoop_fmtNat (u : Nat) (h : u < 2 ^ 64) :
    parseUintLoop (fmtNat u) 0 = (u, none) := by
  induction u using Nat.strong_induction_on with
  | _ u ih =>
    by_cases h10 : u < 10
    · rw [fmtNat_lt u h10]
      have := parseUintLoop_digit u 0 h10 (by omega)
      simpa using this
    · rw [fmtNat_ge u (by omega)]
      rw [parseUintLoop_append _ _ 0 (u / 10) (ih (u / 10) (by omega) (by omega))]
      rw [parseUintLoop_digit (u % 10) (u / 10) (Nat.mod_lt _ (by norm_num)) (by omega)]
      congr 1
      omega


theorem fmtNat_head (u : Nat) : ∃ d cs, d < 10 ∧ fmtNat u = digitChar d :: cs := by
  induction u using Nat.strong_induction_on with
  | _ u ih =>
    by_cases h10 : u < 10
    · exact ⟨u, [], h10, fmtNat_lt u h10⟩
    · obtain ⟨d, cs, hd, he⟩ := ih (u / 10) (by omega)
      exact ⟨d, cs ++ [digitChar (u % 10)], hd, by rw [fmtNat_ge u (by omega), he]; rfl⟩

theorem fmtNat_no_space (u : Nat) : ∀ c ∈ fmtNat u, c ≠ ' ' := by
  induction u using Nat.strong_induction_on with
  | _ u ih =>
    intro c hc
    by_cases h10 : u < 10
    · rw [fmtNat_lt u h10] at hc
      simp only [List.mem_singleton] at hc
      subst hc
      exact digitChar_ne_space u h10
    · rw [fmtNat_ge u (by omega), List.mem_append, List.mem_singleton] at hc
      rcases hc with hc | hc
      · exact ih (u / 10) (by omega) c hc
      · subst hc
        exact digitChar_ne_space _ (Nat.mod_lt _ (by norm_num))

theorem fmtInt_no_space (n : Int) : ∀ c ∈ fmtInt n, c ≠ ' ' := by
  intro c hc
  unfold fmtInt at hc
  split_ifs at hc
  · rcases List.mem_cons.mp hc with h | h
    · subst h; decide
    · exact fmtNat_no_space _ c h
  · exact fmtNat_no_space _ c hc

theorem toInt64_of_lt (n : Nat) (h : n < 2 ^ 63) : toInt64 n = n := by
  unfold toInt64
  omega

/-- Parsing the decimal text of a natural number below `2^63` gives the number
back, without error. -/
theorem Atoi_fmtNat (n : Nat) (h : n < 2 ^ 63) : Atoi (fmtNat n) = ((n : Int), none) := by
  obtain ⟨d, cs, hd, he⟩ := fmtNat_head n
  have hp := parseUintLoop_fmtNat n (by omega)
  rw [he] at hp
  have hs := digitChar_ne_signs d hd
  unfold Atoi ParseInt
  rw [he]
  simp only [hs.1, hs.2, or_self, if_false, ParseUint, List.cons_ne_nil, hp, intSize]
  have h1 : ¬ ((9223372036854775808 : Nat) ≤ n) := by omega
  simp [h1, toInt64_of_lt n h]


theorem digitVal_lt_ten (c : Char) (d : Nat) (h : digitVal c = some d) (hd : d < 10) :
    isDecimalDigit c = true := by
  unfold digitVal at h
  unfold isDecimalDigit
  split_ifs at h with h1 h2
  · simpa using h1
  · simp only [Option.some.injEq] at h
    omega

theorem parseUintLoop_ok_digits (s : List Char) (n m : Nat)
    (h : parseUintLoop s n = (m, none)) : s.all isDecimalDigit = true := by
  induction s generalizing n with
  | nil => rfl
  | cons c cs ih =>
    rw [parseUintLoop] at h
    cases hd : digitVal c with
    | none => simp [hd] at h
    | some d =>
      simp only [hd] at h
      split_ifs at h with h1 h2 h3
      · simp at h
      · simp at h
      · simp at h
      · rw [List.all_cons, digitVal_lt_ten c d hd (by omega), ih _ h]
        rfl

theorem parseUintLoop_range (s : List Char) (n m : Nat)
    (h : parseUintLoop s n = (m, some .outOfRange)) : m = maxUint64 := by
  induction s generalizing n with
  | nil => simp [parseUintLoop] at h
  | cons c cs ih =>
    rw [parseUintLoop] at h
    cases hd : digitVal c with
    | none => simp [hd] at h
    | some d =>
      simp only [hd] at h
      split_ifs at h with h1 h2 h3
      · simp at h
      · simp only [Prod.mk.injEq, and_true] at h
        exact h.symm
      · simp only [Prod.mk.injEq, and_true] at h
        exact h.symm
      · exact ih _ h

theorem ParseInt_ok_literal (s : GoStr) (v : Int) (h : ParseInt s = (v, none)) :
    isDecimalLiteral s = true := by
  cases s with
  | nil => simp [ParseInt] at h
  | cons c cs =>
    unfold ParseInt at h
    unfold isDecimalLiteral
    simp only at h ⊢
    generalize (if c = '+' ∨ c = '-' then cs else c :: cs) = body at h ⊢
    rcases hp : ParseUint body with ⟨un, _ | _ | _⟩
    · unfold ParseUint at hp
      split_ifs at hp with hb
      · simp at hp
      · have := parseUintLoop_ok_digits body 0 un hp
        rw [this]
        cases body with
        | nil => exact absurd rfl hb
        | cons x xs => rfl
    · rw [hp] at h
      simp at h
    · rw [hp] at h
      have hun : un = maxUint64 := by
        unfold ParseUint at hp
        split_ifs at hp with hb
        · simp at hp
        · exact parseUintLoop_range body 0 un hp
      subst hun
      simp only [intSize, maxUint64] at h
      exfalso
      by_cases hneg : c = '-'
      · norm_num [hneg] at h
        exact absurd h.2 (by simp)
      · norm_num [hneg] at h
        exact absurd h.2 (by simp)

/-- A string that is not written as an integer is rejected by `strconv.Atoi`. -/
theorem Atoi_error_of_not_literal (s : GoStr) (h : isDecimalLiteral s = false) :
    (Atoi s).2 ≠ none := by
  intro hnone
  unfold Atoi at hnone
  rcases hp : ParseInt s with ⟨v, _ | k⟩
  · rw [ParseInt_ok_literal s v hp] at h
    exact absurd h (by decide)
  · rw [hp] at hnone
    simp at hnone

/-! ## `strings.Split` on single spaces -/

theorem splitAux_space_field (cur xs rest : List Char) (h : ∀ c ∈ xs, c ≠ ' ') :
    splitAux [' '] 0 cur (xs ++ ' ' :: rest) = (cur.reverse ++ xs) :: splitAux [' '] 0 [] rest := by
  induction xs generalizing cur with
  | nil => simp [splitAux]
  | cons x xs ih =>
    have hx : x ≠ ' ' := h x (List.mem_cons_self _ _)
    have hx2 : ¬ (' ' = x) := fun e => hx e.symm
    rw [List.cons_append, splitAux]
    simp only [List.isPrefixOf, beq_iff_eq, Bool.and_true, hx2, if_false, Bool.false_eq_true]
    rw [ih (x :: cur) (fun c hc => h c (List.mem_cons_of_mem _ hc))]
    simp

theorem splitAux_space_last (cur xs : List Char) (h : ∀ c ∈ xs, c ≠ ' ') :
    splitAux [' '] 0 cur xs = [cur.reverse ++ xs] := by
  induction xs generalizing cur with
  | nil => simp [splitAux]
  | cons x xs ih =>
    have hx : x ≠ ' ' := h x (List.mem_cons_self _ _)
    have hx2 : ¬ (' ' = x) := fun e => hx e.symm
    rw [splitAux]
    simp only [List.isPrefixOf, beq_iff_eq, Bool.and_true, hx2, if_false, Bool.false_eq_true]
    rw [ih (x :: cur) (fun c hc => h c (List.mem_cons_of_mem _ hc))]
    simp

/-- The command line of `Benchmark.Run` splits into its four fixed arguments
whenever the text of the count holds no space. -/
theorem Split_cmdArg (digits : List Char) (h : ∀ c ∈ digits, c ≠ ' ') :
    Split ("test -count=".toList ++ digits ++ " -bench=Bench -run=Bench".toList) " ".toList =
      ["test".toList, "-count=".toList ++ digits, "-bench=Bench".toList, "-run=Bench".toList] := by
  have e1 : "test -count=".toList ++ digits ++ " -bench=Bench -run=Bench".toList =
      "test".toList ++ ' ' :: (("-count=".toList ++ digits) ++ ' ' ::
        ("-bench=Bench".toList ++ ' ' :: "-run=Bench".toList)) := by
    simp
  have hsep : " ".toList = [' '] := rfl
  have h1 : ∀ c ∈ "test".toList, c ≠ ' ' := by decide
  have h2 : ∀ c ∈ "-count=".toList ++ digits, c ≠ ' ' := by
    intro c hc
    have h0 : ∀ c ∈ "-count=".toList, c ≠ ' ' := by decide
    rcases List.mem_append.mp hc with hc | hc
    · exact h0 c hc
    · exact h c hc
  have h3 : ∀ c ∈ "-bench=Bench".toList, c ≠ ' ' := by decide
  have h4 : ∀ c ∈ "-run=Bench".toList, c ≠ ' ' := by decide
  unfold Split
  rw [e1, hsep, if_neg (by simp), splitAux_space_field _ _ _ h1, splitAux_space_field _ _ _ h2,
    splitAux_space_field _ _ _ h3, splitAux_space_last _ _ h4]
  simp

theorem runArgs_eq (n : Int) (pkgs : List GoStr) :
    runArgs n pkgs = ["test".toList, "-count=".toList ++ fmtInt n, "-bench=Bench".toList,
      "-run=Bench".toList] ++ pkgs.map (fun pkg => Join [pkg, "/...".toList]) := by
  unfold runArgs
  rw [Split_cmdArg _ (fmtInt_no_space n)]

/-! ## `filepath.Clean` in front of the wildcard suffix -/

theorem takeWhile_append_sep (xs t : List Char) :
    (xs ++ '/' :: t).takeWhile (fun x => !isPathSeparator x) =
      xs.takeWhile (fun x => !isPathSeparator x) := by
  induction xs with
  | nil => rfl
  | cons x xs ih =>
    rw [List.cons_append, List.takeWhile_cons, List.takeWhile_cons, ih]

theorem dropWhile_append_sep (xs t : List Char) :
    (xs ++ '/' :: t).dropWhile (fun x => !isPathSeparator x) =
      xs.dropWhile (fun x => !isPathSeparator x) ++ '/' :: t := by
  induction xs with
  | nil => rfl
  | cons x xs ih =>
    rw [List.cons_append, List.dropWhile_cons, List.dropWhile_cons, ih]
    split <;> rfl

theorem endOrSeparator_append_sep (xs t : List Char) :
    endOrSeparator (xs ++ '/' :: t) = endOrSeparator xs := by
  cases xs <;> rfl

theorem head_append_sep (xs t : List Char) :
    (xs ++ '/' :: t).head? = some '.' ↔ xs.head? = some '.' := by
  cases xs with
  | nil => simp
  | cons x xs => simp

theorem tail_append_sep (xs t : List Char) (h : xs.head? = some '.') :
    (xs ++ '/' :: t).tail = xs.tail ++ '/' :: t := by
  cases xs with
  | nil => simp at h
  | cons x xs => rfl

theorem cleanLoop_wildcardTail (rooted : Bool) (k : Nat) (out : List Char) (dd : Nat) :
    cleanLoop rooted (k + 4) wildcardTail out dd = afterWildcard rooted out := by
  have e : wildcardTail = ['/', '/', '.', '.', '.'] := rfl
  rw [e]
  have hs : isPathSeparator '/' = true := rfl
  have hd : isPathSeparator '.' = false := rfl
  rw [cleanLoop, if_pos hs, cleanLoop, if_pos hs, cleanLoop]
  simp only [hd, endOrSeparator, List.head?, List.tail, Bool.false_eq_true, if_false, and_false,
    List.takeWhile, List.dropWhile, Bool.not_false, cleanLoop, and_true, true_and]
  rfl


theorem cleanLoop_nil (rooted : Bool) (fuel : Nat) (out : List Char) (dd : Nat) :
    cleanLoop rooted fuel [] out dd = out := by
  cases fuel <;> rfl

theorem wildcardTail_eq : wildcardTail = '/' :: "/...".toList := rfl

theorem length_dropWhile_le (p : Char → Bool) (xs : List Char) :
    (xs.dropWhile p).length ≤ xs.length :=
  (List.dropWhile_sublist p).length_le

theorem cleanLoop_append_wildcard (rooted : Bool) (n : Nat) :
    ∀ (s : List Char), s.length ≤ n → ∀ (fuel1 fuel2 : Nat) (out : List Char) (dd : Nat),
      s.length + 4 ≤ fuel1 → s.length ≤ fuel2 →
      cleanLoop rooted fuel1 (s ++ wildcardTail) out dd =
        afterWildcard rooted (cleanLoop rooted fuel2 s out dd) := by
  induction n with
  | zero =>
    intro s hs fuel1 fuel2 out dd h1 _
    have : s = [] := List.length_eq_zero.mp (by omega)
    subst this
    obtain ⟨k, rfl⟩ : ∃ k, fuel1 = k + 4 := ⟨fuel1 - 4, by simp at h1; omega⟩
    rw [List.nil_append, cleanLoop_wildcardTail, cleanLoop_nil]
  | succ n ih =>
    intro s hs fuel1 fuel2 out dd h1 h2
    cases s with
    | nil =>
      obtain ⟨k, rfl⟩ : ∃ k, fuel1 = k + 4 := ⟨fuel1 - 4, by simp at h1; omega⟩
      rw [List.nil_append, cleanLoop_wildcardTail, cleanLoop_nil]
    | cons c rest =>
      simp only [List.length_cons] at hs h1 h2
      obtain ⟨f1, rfl⟩ : ∃ k, fuel1 = k + 1 := ⟨fuel1 - 1, by omega⟩
      obtain ⟨f2, rfl⟩ : ∃ k, fuel2 = k + 1 := ⟨fuel2 - 1, by omega⟩
      rw [List.cons_append, cleanLoop, cleanLoop]
      rw [wildcardTail_eq, endOrSeparator_append_sep]
      by_cases hc1 : isPathSeparator c = true
      · rw [if_pos hc1, if_pos hc1, ← wildcardTail_eq]
        exact ih rest (by omega) f1 f2 out dd (by omega) (by omega)
      · rw [if_neg hc1, if_neg hc1]
        by_cases hc2 : c = '.' ∧ endOrSeparator rest = true
        · rw [if_pos hc2, if_pos hc2, ← wildcardTail_eq]
          exact ih rest (by omega) f1 f2 out dd (by omega) (by omega)
        · rw [if_neg hc2, if_neg hc2]
          have hdefault :
              cleanLoop rooted f1
                (List.dropWhile (fun x => !isPathSeparator x) (c :: (rest ++ '/' :: "/...".toList)))
                ((List.takeWhile (fun x => !isPathSeparator x)
                  (c :: (rest ++ '/' :: "/...".toList))).reverse ++
                  (if (rooted = true ∧ out.length ≠ 1) ∨ (¬ rooted = true ∧ out.length ≠ 0)
                    then '/' :: out else out)) dd =
              afterWildcard rooted (cleanLoop rooted f2
                (List.dropWhile (fun x => !isPathSeparator x) (c :: rest))
                ((List.takeWhile (fun x => !isPathSeparator x) (c :: rest)).reverse ++
                  (if (rooted = true ∧ out.length ≠ 1) ∨ (¬ rooted = true ∧ out.length ≠ 0)
                    then '/' :: out else out)) dd) := by
            rw [← List.cons_append, takeWhile_append_sep, dropWhile_append_sep, ← wildcardTail_eq]
            have hl : (List.dropWhile (fun x => !isPathSeparator x) (c :: rest)).length
                ≤ rest.length := by
              rw [List.dropWhile_cons]
              simp only [hc1, Bool.not_false, if_true]
              exact length_dropWhile_le _ rest
            exact ih _ (by omega) f1 f2 _ dd (by omega) (by omega)
          by_cases hh : rest.head? = some '.'
          · have hlen : rest.tail.length + 1 = rest.length := by
              cases rest with
              | nil => simp at hh
              | cons x xs => simp
            have hh2 := (head_append_sep rest "/...".toList).mpr hh
            by_cases hc3 : c = '.' ∧ rest.head? = some '.' ∧ endOrSeparator rest.tail = true
            · have hc3b : c = '.' ∧ (rest ++ '/' :: "/...".toList).head? = some '.' ∧
                  endOrSeparator (rest ++ '/' :: "/...".toList).tail = true := by
                rw [tail_append_sep rest _ hh, endOrSeparator_append_sep]
                exact ⟨hc3.1, hh2, hc3.2.2⟩
              rw [if_pos hc3, if_pos hc3b, tail_append_sep rest _ hh, ← wildcardTail_eq]
              split_ifs
              all_goals exact ih rest.tail (by omega) f1 f2 _ _ (by omega) (by omega)
            · have hc3b : ¬ (c = '.' ∧ (rest ++ '/' :: "/...".toList).head? = some '.' ∧
                  endOrSeparator (rest ++ '/' :: "/...".toList).tail = true) := by
                rw [tail_append_sep rest _ hh, endOrSeparator_append_sep]
                exact fun h => hc3 ⟨h.1, hh, h.2.2⟩
              rw [if_neg hc3, if_neg hc3b]
              exact hdefault
          · have hc3 : ¬ (c = '.' ∧ rest.head? = some '.' ∧ endOrSeparator rest.tail = true) :=
              fun h => hh h.2.1
            have hc3b : ¬ (c = '.' ∧ (rest ++ '/' :: "/...".toList).head? = some '.' ∧
                  endOrSeparator (rest ++ '/' :: "/...".toList).tail = true) :=
              fun h => hh ((head_append_sep rest "/...".toList).mp h.2.1)
            rw [if_neg hc3, if_neg hc3b]
            exact hdefault

theorem length_tail_le (xs : List Char) : xs.tail.length ≤ xs.length := by
  cases xs <;> simp

/-- The bound `filepath.Clean` gives its loop is enough: with at least one unit
per unread character the result does not depend on the bound. -/
theorem cleanLoop_fuel (rooted : Bool) (n : Nat) :
    ∀ (s : List Char), s.length ≤ n → ∀ (fuel1 fuel2 : Nat) (out : List Char) (dd : Nat),
      s.length ≤ fuel1 → s.length ≤ fuel2 →
      cleanLoop rooted fuel1 s out dd = cleanLoop rooted fuel2 s out dd := by
  induction n with
  | zero =>
    intro s hs fuel1 fuel2 out dd _ _
    have : s = [] := List.length_eq_zero.mp (by omega)
    subst this
    rw [cleanLoop_nil, cleanLoop_nil]
  | succ n ih =>
    intro s hs fuel1 fuel2 out dd h1 h2
    cases s with
    | nil => rw [cleanLoop_nil, cleanLoop_nil]
    | cons c rest =>
      simp only [List.length_cons] at hs h1 h2
      obtain ⟨f1, rfl⟩ : ∃ k, fuel1 = k + 1 := ⟨fuel1 - 1, by omega⟩
      obtain ⟨f2, rfl⟩ : ∃ k, fuel2 = k + 1 := ⟨fuel2 - 1, by omega⟩
      have ht := length_tail_le rest
      rw [cleanLoop, cleanLoop]
      by_cases hc1 : isPathSeparator c = true
      · rw [if_pos hc1, if_pos hc1]
        exact ih rest (by omega) f1 f2 out dd (by omega) (by omega)
      · have hl : (List.dropWhile (fun x => !isPathSeparator x) (c :: rest)).length
            ≤ rest.length := by
          rw [List.dropWhile_cons]
          simp only [hc1, Bool.not_false, if_true]
          exact length_dropWhile_le _ rest
        rw [if_neg hc1, if_neg hc1]
        split_ifs
        all_goals first
          | exact ih rest (by omega) f1 f2 _ _ (by omega) (by omega)
          | exact ih rest.tail (by omega) f1 f2 _ _ (by omega) (by omega)
          | exact ih _ (by omega) f1 f2 _ _ (by omega) (by omega)

theorem Clean_cons (c : Char) (rest : List Char) :
    Clean (c :: rest) =
      if (cleanBuffer c rest).length = 0 then ['.'] else (cleanBuffer c rest).reverse := by
  unfold Clean cleanBuffer
  by_cases h : isPathSeparator c = true
  · simp only [h, if_true]
  · simp only [h, if_false, Bool.false_eq_true]

theorem Clean_cons_wildcard (c : Char) (rest : List Char) :
    Clean (c :: rest ++ wildcardTail) =
      (afterWildcard (isPathSeparator c) (cleanBuffer c rest)).reverse := by
  rw [List.cons_append, Clean_cons]
  have hb : cleanBuffer c (rest ++ wildcardTail) =
      afterWildcard (isPathSeparator c) (cleanBuffer c rest) := by
    unfold cleanBuffer
    by_cases h : isPathSeparator c = true
    · simp only [h, if_true]
      exact cleanLoop_append_wildcard true rest.length rest (le_refl _) _ _ _ _
        (by simp [wildcardTail]) (by simp)
    · simp only [h, if_false, Bool.false_eq_true]
      rw [← List.cons_append]
      exact cleanLoop_append_wildcard false (c :: rest).length (c :: rest) (le_refl _) _ _ _ _
        (by simp [wildcardTail]) (by simp)
  rw [hb]
  simp [afterWildcard]

theorem Join_wildcard_cons (c : Char) (rest : List Char) :
    Join [c :: rest, "/...".toList] =
      (afterWildcard (isPathSeparator c) (cleanBuffer c rest)).reverse := by
  rw [← Clean_cons_wildcard]
  simp [Join, stringsJoin, wildcardTail]

/-- The argument `filepath.Join(pkg, "/...")` is the package path followed by
`/...` exactly when the path is empty, or is a clean path other than `.` and
`/`. -/
theorem Join_wildcard_iff (p : GoStr) :
    Join [p, "/...".toList] = p ++ "/...".toList ↔
      p = [] ∨ (Clean p = p ∧ p ≠ ".".toList ∧ p ≠ "/".toList) := by
  cases p with
  | nil => simp; decide
  | cons c rest =>
    rw [Join_wildcard_cons, Clean_cons]
    simp only [List.cons_ne_nil, false_or]
    have hsplit : c :: rest ++ "/...".toList = (c :: rest ++ ['/']) ++ "...".toList := by simp
    have hrev : ∀ o : List Char, (afterWildcard (isPathSeparator c) o).reverse =
        (if (isPathSeparator c = true ∧ o.length ≠ 1) ∨ (¬ isPathSeparator c = true ∧ o.length ≠ 0)
          then '/' :: o else o).reverse ++ "...".toList := by
      intro o; simp [afterWildcard]
    rw [hrev, hsplit, List.append_left_inj]
    have hdot : c :: rest = ".".toList → cleanBuffer c rest = [] := by
      intro h
      obtain ⟨rfl, rfl⟩ := List.cons.inj h
      rfl
    have hroot : c :: rest = "/".toList → cleanBuffer c rest = ['/'] := by
      intro h
      obtain ⟨rfl, rfl⟩ := List.cons.inj h
      rfl
    have hsep : isPathSeparator c = true → c = '/' := by
      intro h
      simpa [isPathSeparator] using h
    generalize cleanBuffer c rest = out at hdot hroot ⊢
    constructor
    · intro h
      by_cases hcond : (isPathSeparator c = true ∧ out.length ≠ 1) ∨
          (¬ isPathSeparator c = true ∧ out.length ≠ 0)
      · rw [if_pos hcond, List.reverse_cons, List.append_left_inj] at h
        have hlen : out.length = rest.length + 1 := by
          have := congrArg List.length h
          simpa using this
        refine ⟨?_, ?_, ?_⟩
        · rw [if_neg (by omega)]; exact h
        · intro hp
          rw [hdot hp] at hlen
          simp at hlen
        · intro hp
          have ho := hroot hp
          obtain ⟨rfl, rfl⟩ := List.cons.inj hp
          rw [ho] at hcond
          simp [isPathSeparator] at hcond
      · rw [if_neg hcond] at h
        have hlen : out.length = rest.length + 2 := by
          have := congrArg List.length h
          simpa using this
        exfalso
        apply hcond
        by_cases hs : isPathSeparator c = true
        · exact Or.inl ⟨hs, by omega⟩
        · exact Or.inr ⟨hs, by omega⟩
    · rintro ⟨hclean, hnd, hnr⟩
      by_cases hlen0 : out.length = 0
      · rw [if_pos hlen0] at hclean
        exact absurd hclean.symm hnd
      · rw [if_neg hlen0] at hclean
        have hlen : out.length = rest.length + 1 := by
          have := congrArg List.length hclean
          simpa using this
        have hcond : (isPathSeparator c = true ∧ out.length ≠ 1) ∨
            (¬ isPathSeparator c = true ∧ out.length ≠ 0) := by
          by_cases hs : isPathSeparator c = true
          · refine Or.inl ⟨hs, ?_⟩
            intro h1
            have hr : rest = [] := List.length_eq_zero.mp (by omega)
            apply hnr
            rw [hr, hsep hs]
            rfl
          · exact Or.inr ⟨hs, hlen0⟩
        rw [if_pos hcond, List.reverse_cons, hclean]

/-! ## The claims of the specification -/

/-- C1: at a concrete input where the child process of `runCommand` exits with
status 1, `runCommand` returns that exit error, yet `Benchmark.Run` and
`Benchmark.Diff` both return nil. -/
theorem Run_Diff_drop_process_error :
    (runCommand failingWorld [] "go".toList []
        (fixedArgs "8".toList ++ ["example.com/mod/pkg/...".toList])).outcome =
      .returned (some (.exitError 1)) ∧
    runCommandCalls (Run failingWorld emptyEnv 8).trace =
      [("go".toList, [], fixedArgs "8".toList ++ ["example.com/mod/pkg/...".toList])] ∧
    (Run failingWorld emptyEnv 8).outcome = .returned none ∧
    (runCommand failingWorld [] "benchstat".toList [] ["old.txt".toList]).outcome =
      .returned (some (.exitError 1)) ∧
    runCommandCalls (Diff failingWorld ⟨[], [], "old.txt".toList, []⟩).trace =
      [("benchstat".toList, [], ["old.txt".toList])] ∧
    (Diff failingWorld ⟨[], [], "old.txt".toList, []⟩).outcome = .returned none := by
  decide

/-- C2, as stated, fails for a count above the range of `int`: with
`BENCH_COUNT` the decimal text of `2^63`, `Benchmark.Run` returns the
configuration error and passes no argument list to `runCommand`. -/
theorem Run_count_above_int_range :
    fmtNat (2 ^ 63) = "9223372036854775808".toList ∧
    (Run (quietWorld []) ⟨[], fmtNat (2 ^ 63), [], []⟩ 8).outcome =
      .returned (some (.errorf parseErrorText
        (.numError "Atoi" "9223372036854775808".toList .outOfRange))) ∧
    passedArgs (Run (quietWorld []) ⟨[], fmtNat (2 ^ 63), [], []⟩ 8).trace = [] := by
  decide

theorem passedArgs_Run_ok (w : World) (env : Env) (c n : Int) (pkgs : List GoStr)
    (hd : Deps w = none) (hc : resolveCount env c = (n, none)) (hl : w.listPackages = .ok pkgs) :
    passedArgs (Run w env c).trace =
      [fixedArgs (fmtInt n) ++ pkgs.map (fun pkg => Join [pkg, "/...".toList])] := by
  unfold passedArgs
  rw [(Run_ok w env c n pkgs hd hc hl).2.1, runArgs_eq]
  rfl

theorem fmtInt_natCast (n : Nat) : fmtInt (n : Int) = fmtNat n := by
  unfold fmtInt
  simp

/-- C2, amended: for every natural number `N` below `2^63` (so for every
positive `N` in the range of `int`) given through `BENCH_COUNT` in decimal (as
its plain decimal text, or as any text `strconv.Atoi` reads as `N`), and every
package list the lister returns, the argument list `Benchmark.Run` passes to
`runCommand` is `test`, `-count=N`, `-bench=Bench`, `-run=Bench` followed by
one argument per package; with an empty package list it is these four
arguments and nothing else. -/
theorem Run_count_flag (w : World) (env : Env) (c : Int) (N : Nat) (pkgs : List GoStr)
    (hN : N < 2 ^ 63) (hd : Deps w = none) (hl : w.listPackages = .ok pkgs)
    (hb : env.BENCH_COUNT = fmtNat N ∨ Atoi env.BENCH_COUNT = ((N : Int), none)) :
    passedArgs (Run w env c).trace =
      [fixedArgs (fmtNat N) ++ pkgs.map (fun pkg => Join [pkg, "/...".toList])] ∧
    (pkgs = [] → passedArgs (Run w env c).trace = [fixedArgs (fmtNat N)]) := by
  have hparse : Atoi env.BENCH_COUNT = ((N : Int), none) := by
    rcases hb with hb | hb
    · rw [hb, Atoi_fmtNat N hN]
    · exact hb
  have hne : env.BENCH_COUNT ≠ [] := by
    intro he
    rw [he] at hparse
    have h2 : (Atoi []).2 = none := congrArg Prod.snd hparse
    exact absurd h2 (by decide)
  have hc : resolveCount env c = ((N : Int), none) := by
    unfold resolveCount
    rw [if_pos hne, hparse]
  have h := passedArgs_Run_ok w env c N pkgs hd hc hl
  rw [fmtInt_natCast] at h
  refine ⟨h, ?_⟩
  intro hp
  rw [h, hp]
  rfl

/-- Witness of `Run_count_flag`: the count 5 and one package. -/
theorem Run_count_flag_witness :
    passedArgs (Run (quietWorld ["example.com/mod/pkg".toList]) ⟨[], "5".toList, [], []⟩ 8).trace =
      [fixedArgs "5".toList ++ ["example.com/mod/pkg/...".toList]] :=
  (Run_count_flag (quietWorld ["example.com/mod/pkg".toList]) ⟨[], "5".toList, [], []⟩ 8 5
    ["example.com/mod/pkg".toList] (by decide) rfl rfl (Or.inl rfl)).1

/-- C3: when `BENCH_COUNT` is not empty and does not parse as an integer (it is
not an optionally signed run of decimal digits, or `strconv.Atoi` reports an
error for it, as for a value outside `int`), `Benchmark.Run` never returns nil,
past `mg.Deps` it returns the configuration error that wraps the parse error,
and neither the package lister nor `runCommand` is called and no process is
spawned. -/
theorem Run_malformed_count (w : World) (env : Env) (c : Int) (hne : env.BENCH_COUNT ≠ [])
    (hbad : isDecimalLiteral env.BENCH_COUNT = false ∨ (Atoi env.BENCH_COUNT).2 ≠ none) :
    ∃ e, (Atoi env.BENCH_COUNT).2 = some e ∧
      (Run w env c).outcome ≠ .returned none ∧
      (Deps w = none →
        (Run w env c).outcome = .returned (some (.errorf parseErrorText e))) ∧
      (GoError.errorf parseErrorText e).wraps e = true ∧
      listerCalled (Run w env c).trace = false ∧
      runCommandCalls (Run w env c).trace = [] ∧
      spawned (Run w env c).trace = [] := by
  have hbad2 : (Atoi env.BENCH_COUNT).2 ≠ none := by
    rcases hbad with h | h
    · exact Atoi_error_of_not_literal _ h
    · exact h
  obtain ⟨e, he⟩ := Option.ne_none_iff_exists'.mp hbad2
  have hc : resolveCount env c = ((Atoi env.BENCH_COUNT).1, some e) := by
    unfold resolveCount
    rw [if_pos hne, ← he]
  have hw : (GoError.errorf parseErrorText e).wraps e = true := by
    simp [GoError.wraps]
  refine ⟨e, he, ?_⟩
  cases hd : Deps w with
  | some d =>
    rw [Run_deps_failed w env c d hd]
    exact ⟨by simp, fun h => absurd h (by simp), hw, rfl, rfl, rfl⟩
  | none =>
    rw [Run_count_error w env c _ e hd hc]
    exact ⟨by simp, fun _ => rfl, hw, rfl, rfl, rfl⟩

/-- Witness of `Run_malformed_count`: the value `1e3`. -/
theorem Run_malformed_count_witness :
    ∃ e, (Atoi "1e3".toList).2 = some e ∧
      (Run (quietWorld []) ⟨[], "1e3".toList, [], []⟩ 8).outcome ≠ .returned none ∧
      (Deps (quietWorld []) = none →
        (Run (quietWorld []) ⟨[], "1e3".toList, [], []⟩ 8).outcome =
          .returned (some (.errorf parseErrorText e))) ∧
      (GoError.errorf parseErrorText e).wraps e = true ∧
      listerCalled (Run (quietWorld []) ⟨[], "1e3".toList, [], []⟩ 8).trace = false ∧
      runCommandCalls (Run (quietWorld []) ⟨[], "1e3".toList, [], []⟩ 8).trace = [] ∧
      spawned (Run (quietWorld []) ⟨[], "1e3".toList, [], []⟩ 8).trace = [] :=
  Run_malformed_count (quietWorld []) ⟨[], "1e3".toList, [], []⟩ 8 (by decide)
    (Or.inl (by decide))

/-- C4: when `BASE` is empty, whatever `NEXT` and `OUTPUT` are, `Benchmark.Diff`
never returns nil, past `mg.Deps` it returns the missing-parameter error, and
`runCommand` is not called and no process is spawned. -/
theorem Diff_base_unset (w : World) (env : Env) (hb : env.BASE = []) :
    (Diff w env).outcome ≠ .returned none ∧
    (Deps w = none → (Diff w env).outcome = .returned (some missingBaseError)) ∧
    runCommandCalls (Diff w env).trace = [] ∧
    spawned (Diff w env).trace = [] := by
  cases hd : Deps w with
  | some e => simp [Diff, hd, runCommandCalls, spawned]
  | none =>
    simp only [Diff, hd, hb, if_true]
    refine ⟨by simp, fun _ => rfl, rfl, rfl⟩

/-- Witness of `Diff_base_unset`: `NEXT` and `OUTPUT` set, `BASE` not. -/
theorem Diff_base_unset_witness :
    (Diff failingWorld ⟨"out.txt".toList, [], [], "new.txt".toList⟩).outcome ≠ .returned none ∧
    (Deps failingWorld = none →
      (Diff failingWorld ⟨"out.txt".toList, [], [], "new.txt".toList⟩).outcome =
        .returned (some missingBaseError)) ∧
    runCommandCalls (Diff failingWorld ⟨"out.txt".toList, [], [], "new.txt".toList⟩).trace = [] ∧
    spawned (Diff failingWorld ⟨"out.txt".toList, [], [], "new.txt".toList⟩).trace = [] :=
  Diff_base_unset failingWorld ⟨"out.txt".toList, [], [], "new.txt".toList⟩ rfl

theorem Diff_calls (w : World) (env : Env) (hd : Deps w = none) (hb : env.BASE ≠ []) :
    runCommandCalls (Diff w env).trace =
      [("benchstat".toList, env.OUTPUT,
        if env.NEXT = [] then [env.BASE] else [env.BASE, env.NEXT])] := by
  simp only [Diff, hd, hb, if_false]
  by_cases hn : env.NEXT = []
  · simp only [hn, if_true, List.nil_append]
    have ht := runCommand_trace_calls w [] "benchstat".toList env.OUTPUT [env.BASE]
    have ho := runCommand_outcome w [] "benchstat".toList env.OUTPUT [env.BASE]
    rcases ho with ⟨err, ho⟩ | ho
    · simp only [ho, runCommandCalls_append, runCommandCalls, ht, if_true,
        List.append_nil, List.nil_append]
    · simp only [ho, runCommandCalls_append, runCommandCalls, ht,
        List.append_nil, List.nil_append]
  · simp only [hn, if_false, List.nil_append, List.singleton_append]
    have ht := runCommand_trace_calls w [] "benchstat".toList env.OUTPUT [env.BASE, env.NEXT]
    have ho := runCommand_outcome w [] "benchstat".toList env.OUTPUT [env.BASE, env.NEXT]
    rcases ho with ⟨err, ho⟩ | ho
    · simp only [ho, runCommandCalls_append, runCommandCalls, ht, if_true,
        List.append_nil, List.nil_append, List.singleton_append]
    · simp only [ho, runCommandCalls_append, runCommandCalls, ht,
        List.append_nil, List.nil_append, List.singleton_append]

/-- C5: for a non-empty `BASE` (past `mg.Deps`), `Benchmark.Diff` calls
`runCommand` once, for `benchstat`, with the argument list `[BASE]` when `NEXT`
is empty and `[BASE, NEXT]` when it is not. -/
theorem Diff_args (w : World) (env : Env) (hd : Deps w = none) (hb : env.BASE ≠ []) :
    (env.NEXT = [] →
      runCommandCalls (Diff w env).trace = [("benchstat".toList, env.OUTPUT, [env.BASE])]) ∧
    (env.NEXT ≠ [] →
      runCommandCalls (Diff w env).trace =
        [("benchstat".toList, env.OUTPUT, [env.BASE, env.NEXT])]) := by
  have h := Diff_calls w env hd hb
  constructor
  · intro hn
    rw [h, if_pos hn]
  · intro hn
    rw [h, if_neg hn]

/-- Witness of `Diff_args`: `BASE` alone, and `BASE` with `NEXT`. -/
theorem Diff_args_witness :
    runCommandCalls (Diff failingWorld ⟨[], [], "old.txt".toList, []⟩).trace =
      [("benchstat".toList, [], ["old.txt".toList])] ∧
    runCommandCalls (Diff failingWorld ⟨[], [], "old.txt".toList, "new.txt".toList⟩).trace =
      [("benchstat".toList, [], ["old.txt".toList, "new.txt".toList])] :=
  ⟨(Diff_args failingWorld ⟨[], [], "old.txt".toList, []⟩ rfl (by decide)).1 rfl,
   (Diff_args failingWorld ⟨[], [], "old.txt".toList, "new.txt".toList⟩ rfl (by decide)).2
     (by decide)⟩

theorem resolveCount_ok (env : Env) (c : Int)
    (hc : env.BENCH_COUNT = [] ∨ (Atoi env.BENCH_COUNT).2 = none) :
    ∃ n, resolveCount env c = (n, none) := by
  unfold resolveCount
  by_cases he : env.BENCH_COUNT = []
  · exact ⟨c, by rw [if_neg (by simpa using he)]⟩
  · rcases hc with hc | hc
    · exact absurd hc he
    · exact ⟨(Atoi env.BENCH_COUNT).1, by rw [if_pos he]; exact Prod.ext rfl hc⟩

theorem fixedArgs_length (count : GoStr) : (fixedArgs count).length = 4 := rfl

/-- C6, as stated, fails for a package path that is not clean: for the package
list with the one path `pkg/`, the fifth argument is `pkg/...`, not the path
followed by `/...`. -/
theorem Run_unclean_package_path :
    passedArgs (Run (quietWorld ["pkg/".toList]) emptyEnv 8).trace =
      [fixedArgs "8".toList ++ ["pkg/...".toList]] ∧
    "pkg/...".toList ≠ "pkg/".toList ++ "/...".toList := by
  decide

/-- C6, amended: when `Benchmark.Run` gets as far as `runCommand` (past
`mg.Deps`, with `BENCH_COUNT` empty or accepted by `strconv.Atoi`), the argument
list has exactly `4 + k` elements for the `k` packages of the lister, in the
lister's order: the argument at index `4 + i` is `filepath.Join(p_i, "/...")`,
and that is `p_i` followed by `/...` exactly when `p_i` is empty or is a clean
path other than `.` and `/`. -/
theorem Run_package_args (w : World) (env : Env) (c : Int) (pkgs : List GoStr)
    (hd : Deps w = none) (hl : w.listPackages = .ok pkgs)
    (hc : env.BENCH_COUNT = [] ∨ (Atoi env.BENCH_COUNT).2 = none) :
    ∃ args, passedArgs (Run w env c).trace = [args] ∧
      args.length = 4 + pkgs.length ∧
      ∀ (i : Nat) (p : GoStr), pkgs[i]? = some p →
        args[4 + i]? = some (Join [p, "/...".toList]) ∧
        (args[4 + i]? = some (p ++ "/...".toList) ↔
          p = [] ∨ (Clean p = p ∧ p ≠ ".".toList ∧ p ≠ "/".toList)) := by
  obtain ⟨n, hn⟩ := resolveCount_ok env c hc
  refine ⟨_, passedArgs_Run_ok w env c n pkgs hd hn hl, ?_, ?_⟩
  · rw [List.length_append, fixedArgs_length, List.length_map]
  · intro i p hp
    have hget : (fixedArgs (fmtInt n) ++ pkgs.map (fun pkg => Join [pkg, "/...".toList]))[4 + i]? =
        some (Join [p, "/...".toList]) := by
      rw [List.getElem?_append_right (by rw [fixedArgs_length]; omega), fixedArgs_length,
        Nat.add_sub_cancel_left, List.getElem?_map, hp]
      rfl
    refine ⟨hget, ?_⟩
    rw [hget, Option.some_inj]
    exact Join_wildcard_iff p

/-- Witness of `Run_package_args`: two clean package paths. -/
theorem Run_package_args_witness :
    ∃ args, passedArgs (Run (quietWorld ["example.com/mod".toList, "example.com/mod/pkg".toList])
        emptyEnv 8).trace = [args] ∧
      args.length = 4 + ["example.com/mod".toList, "example.com/mod/pkg".toList].length ∧
      ∀ (i : Nat) (p : GoStr),
        ["example.com/mod".toList, "example.com/mod/pkg".toList][i]? = some p →
        args[4 + i]? = some (Join [p, "/...".toList]) ∧
        (args[4 + i]? = some (p ++ "/...".toList) ↔
          p = [] ∨ (Clean p = p ∧ p ≠ ".".toList ∧ p ≠ "/".toList)) :=
  Run_package_args (quietWorld ["example.com/mod".toList, "example.com/mod/pkg".toList])
    emptyEnv 8 ["example.com/mod".toList, "example.com/mod/pkg".toList] rfl rfl (Or.inl rfl)

theorem resolveCount_idem (env : Env) (c : Int) :
    resolveCount env (resolveCount env c).1 = resolveCount env c := by
  unfold resolveCount
  by_cases he : env.BENCH_COUNT = []
  · rw [if_neg (by simpa using he), if_neg (by simpa using he)]
  · rw [if_pos he, if_pos he]

/-- C7: two invocations of `Benchmark.Run` in sequence, with the same
environment, the same result of `mg.Deps` and the same result of the package
lister, from any value of the package-global count: both pass the same argument
lists to `runCommand`, one returns the configuration error exactly when the
other does, and the second leaves the count as the first left it. -/
theorem Run_twice_same_args (w1 w2 : World) (env : Env) (c : Int) (hd : Deps w1 = Deps w2)
    (hl : w1.listPackages = w2.listPackages) :
    passedArgs (Run w1 env c).trace =
      passedArgs (Run w2 env (Run w1 env c).benchmarkCount).trace ∧
    (∀ e, (Run w1 env c).outcome = .returned (some (.errorf parseErrorText e)) ↔
      (Run w2 env (Run w1 env c).benchmarkCount).outcome =
        .returned (some (.errorf parseErrorText e))) ∧
    (Run w2 env (Run w1 env c).benchmarkCount).benchmarkCount = (Run w1 env c).benchmarkCount := by
  cases hd1 : Deps w1 with
  | some e =>
    have hd2 : Deps w2 = some e := by rw [← hd, hd1]
    rw [Run_deps_failed w1 env c e hd1]
    rw [Run_deps_failed w2 env c e hd2]
    exact ⟨rfl, fun _ => Iff.rfl, rfl⟩
  | none =>
    have hd2 : Deps w2 = none := by rw [← hd, hd1]
    have hidem := resolveCount_idem env c
    rcases hr : resolveCount env c with ⟨n, _ | e⟩
    · rw [hr] at hidem
      cases hl1 : w1.listPackages with
      | error er =>
        have hl2 : w2.listPackages = .error er := by rw [← hl, hl1]
        rw [Run_list_error w1 env c n er hd1 hr hl1]
        rw [Run_list_error w2 env n n er hd2 hidem hl2]
        exact ⟨rfl, fun _ => Iff.rfl, rfl⟩
      | ok pkgs =>
        have hl2 : w2.listPackages = .ok pkgs := by rw [← hl, hl1]
        have h1 := Run_ok w1 env c n pkgs hd1 hr hl1
        rw [h1.1]
        have h2 := Run_ok w2 env n n pkgs hd2 hidem hl2
        refine ⟨?_, ?_, h2.1⟩
        · unfold passedArgs
          rw [h1.2.1, h2.2.1]
        · intro e
          constructor
          · intro h
            rcases h1.2.2 with h' | h' <;> rw [h'] at h <;> simp at h
          · intro h
            rcases h2.2.2 with h' | h' <;> rw [h'] at h <;> simp at h
    · rw [hr] at hidem
      rw [Run_count_error w1 env c n e hd1 hr]
      rw [Run_count_error w2 env n n e hd2 hidem]
      exact ⟨rfl, fun _ => Iff.rfl, rfl⟩

/-- Witness of `Run_twice_same_args`: an override of 3, from the count 8, with
a child process that fails the first time only. -/
theorem Run_twice_same_args_witness :
    passedArgs (Run failingWorld ⟨[], "3".toList, [], []⟩ 8).trace =
      passedArgs (Run (quietWorld ["example.com/mod/pkg".toList]) ⟨[], "3".toList, [], []⟩
        (Run failingWorld ⟨[], "3".toList, [], []⟩ 8).benchmarkCount).trace ∧
    (∀ e, (Run failingWorld ⟨[], "3".toList, [], []⟩ 8).outcome =
        .returned (some (.errorf parseErrorText e)) ↔
      (Run (quietWorld ["example.com/mod/pkg".toList]) ⟨[], "3".toList, [], []⟩
        (Run failingWorld ⟨[], "3".toList, [], []⟩ 8).benchmarkCount).outcome =
        .returned (some (.errorf parseErrorText e))) ∧
    (Run (quietWorld ["example.com/mod/pkg".toList]) ⟨[], "3".toList, [], []⟩
        (Run failingWorld ⟨[], "3".toList, [], []⟩ 8).benchmarkCount).benchmarkCount =
      (Run failingWorld ⟨[], "3".toList, [], []⟩ 8).benchmarkCount :=
  Run_twice_same_args failingWorld (quietWorld ["example.com/mod/pkg".toList])
    ⟨[], "3".toList, [], []⟩ 8 rfl rfl

theorem Run_benchmarkCount (w : World) (env : Env) (c : Int) (hd : Deps w = none) :
    (Run w env c).benchmarkCount = (resolveCount env c).1 := by
  rcases hr : resolveCount env c with ⟨n, _ | e⟩
  · cases hl : w.listPackages with
    | error er => rw [Run_list_error w env c n er hd hr hl]
    | ok pkgs => exact (Run_ok w env c n pkgs hd hr hl).1
  · rw [Run_count_error w env c n e hd hr]

theorem passedArgs_Run (w : World) (env : Env) (c : Int) :
    ∀ args ∈ passedArgs (Run w env c).trace, ∃ pkgs : List GoStr,
      args = fixedArgs (fmtInt (resolveCount env c).1) ++
        pkgs.map (fun pkg => Join [pkg, "/...".toList]) := by
  intro args hargs
  cases hd : Deps w with
  | some e =>
    rw [Run_deps_failed w env c e hd] at hargs
    simp [passedArgs, runCommandCalls] at hargs
  | none =>
    rcases hr : resolveCount env c with ⟨n, _ | e⟩
    · cases hl : w.listPackages with
      | error er =>
        rw [Run_list_error w env c n er hd hr hl] at hargs
        simp [passedArgs, runCommandCalls] at hargs
      | ok pkgs =>
        rw [passedArgs_Run_ok w env c n pkgs hd hr hl, List.mem_singleton] at hargs
        exact ⟨pkgs, hargs⟩
    · rw [Run_count_error w env c n e hd hr] at hargs
      simp [passedArgs, runCommandCalls] at hargs

theorem Run_benchmarkCount_unset (w : World) (env : Env) (c : Int)
    (hu : env.BENCH_COUNT = []) : (Run w env c).benchmarkCount = c := by
  cases hd : Deps w with
  | some e => rw [Run_deps_failed w env c e hd]
  | none =>
    rw [Run_benchmarkCount w env c hd]
    unfold resolveCount
    rw [if_neg (by simpa using hu)]

theorem countAfter_unset (earlier : List (World × Env)) (c : Int)
    (hu : ∀ p ∈ earlier, p.2.BENCH_COUNT = []) : countAfter earlier c = c := by
  induction earlier generalizing c with
  | nil => rfl
  | cons p rest ih =>
    obtain ⟨w, env⟩ := p
    unfold countAfter
    rw [Run_benchmarkCount_unset w env c (hu (w, env) (List.mem_cons_self _ _))]
    exact ih c (fun q hq => hu q (List.mem_cons_of_mem _ hq))

/-- C8, as stated, fails after an invocation with an override: run with
`BENCH_COUNT=3` and then with `BENCH_COUNT` not set, from the initial count,
`Benchmark.Run` passes `-count=3`, not `-count=8`. -/
theorem Run_unset_after_override :
    passedArgs (Run (quietWorld []) emptyEnv
        (Run (quietWorld []) ⟨[], "3".toList, [], []⟩ initialBenchmarkCount).benchmarkCount).trace =
      [fixedArgs "3".toList] ∧
    fixedArgs "3".toList ≠ fixedArgs "8".toList := by
  decide

/-- C8, amended: an invocation of `Benchmark.Run` with `BENCH_COUNT` not set
(past `mg.Deps`, with a package list) passes the count flag `-count=c` for the
value `c` the package-global count has when it starts, and leaves that value
unchanged; when no earlier invocation of `Run` since the start of the process
had `BENCH_COUNT` set, `c` is the initial 8 and the flag is `-count=8`. -/
theorem Run_unset_count (earlier : List (World × Env)) (w : World) (env : Env)
    (pkgs : List GoStr) (hu : env.BENCH_COUNT = []) (hd : Deps w = none)
    (hl : w.listPackages = .ok pkgs) :
    passedArgs (Run w env (countAfter earlier initialBenchmarkCount)).trace =
      [fixedArgs (fmtInt (countAfter earlier initialBenchmarkCount)) ++
        pkgs.map (fun pkg => Join [pkg, "/...".toList])] ∧
    (Run w env (countAfter earlier initialBenchmarkCount)).benchmarkCount =
      countAfter earlier initialBenchmarkCount ∧
    ((∀ p ∈ earlier, p.2.BENCH_COUNT = []) →
      passedArgs (Run w env (countAfter earlier initialBenchmarkCount)).trace =
        [fixedArgs "8".toList ++ pkgs.map (fun pkg => Join [pkg, "/...".toList])]) := by
  have hc : ∀ c, resolveCount env c = (c, none) := by
    intro c
    unfold resolveCount
    rw [if_neg (by simpa using hu)]
  have h := passedArgs_Run_ok w env _ _ pkgs hd (hc (countAfter earlier initialBenchmarkCount)) hl
  refine ⟨h, Run_benchmarkCount_unset w env _ hu, ?_⟩
  intro hall
  rw [h, countAfter_unset earlier _ hall]
  rfl

/-- Witness of `Run_unset_count`: two earlier invocations without an override,
one of them with a failing child process. -/
theorem Run_unset_count_witness :
    passedArgs (Run (quietWorld ["example.com/mod/pkg".toList]) emptyEnv
        (countAfter [(failingWorld, emptyEnv), (quietWorld [], ⟨"out.txt".toList, [], [], []⟩)]
          initialBenchmarkCount)).trace =
      [fixedArgs "8".toList ++ ["example.com/mod/pkg/...".toList]] :=
  (Run_unset_count [(failingWorld, emptyEnv), (quietWorld [], ⟨"out.txt".toList, [], [], []⟩)]
    (quietWorld ["example.com/mod/pkg".toList]) emptyEnv ["example.com/mod/pkg".toList]
    rfl rfl rfl).2.2 (by decide)

/-- C9, as stated, fails: with `BENCH_COUNT=0` the count becomes 0 and the flag
`-count=0` is passed, with `BENCH_COUNT=-3` the flag `-count=-3` is passed, and
with the malformed `BENCH_COUNT=abc` the count is 0 after the configuration
error. -/
theorem Run_nonpositive_count :
    (Run (quietWorld []) ⟨[], "0".toList, [], []⟩ 8).benchmarkCount = 0 ∧
    passedArgs (Run (quietWorld []) ⟨[], "0".toList, [], []⟩ 8).trace = [fixedArgs "0".toList] ∧
    (Run (quietWorld []) ⟨[], "-3".toList, [], []⟩ 8).benchmarkCount = -3 ∧
    passedArgs (Run (quietWorld []) ⟨[], "-3".toList, [], []⟩ 8).trace =
      [fixedArgs "-3".toList] ∧
    (Run (quietWorld []) ⟨[], "abc".toList, [], []⟩ 8).outcome =
      .returned (some (.errorf parseErrorText (.numError "Atoi" "abc".toList .invalid))) ∧
    (Run (quietWorld []) ⟨[], "abc".toList, [], []⟩ 8).benchmarkCount = 0 := by
  decide

/-- C9, amended: from a positive package-global count, for every `BENCH_COUNT`
that is empty or from which `strconv.Atoi` yields a positive value, the count
is positive after `Benchmark.Run`, however it ends, and every argument list
passed to `runCommand` starts with `test` and a flag `-count=N` with `N > 0`. -/
theorem Run_count_positive (w : World) (env : Env) (c : Int) (hpos : 0 < c)
    (h : env.BENCH_COUNT = [] ∨ 0 < (Atoi env.BENCH_COUNT).1) :
    0 < (Run w env c).benchmarkCount ∧
    ∀ args ∈ passedArgs (Run w env c).trace,
      ∃ N : Int, 0 < N ∧ args.take 4 = fixedArgs (fmtInt N) := by
  have hr : 0 < (resolveCount env c).1 := by
    unfold resolveCount
    by_cases he : env.BENCH_COUNT = []
    · rw [if_neg (by simpa using he)]; exact hpos
    · rw [if_pos he]
      rcases h with h | h
      · exact absurd h he
      · exact h
  constructor
  · cases hd : Deps w with
    | some e => rw [Run_deps_failed w env c e hd]; exact hpos
    | none => rw [Run_benchmarkCount w env c hd]; exact hr
  · intro args hargs
    obtain ⟨pkgs, hp⟩ := passedArgs_Run w env c args hargs
    refine ⟨_, hr, ?_⟩
    rw [hp]
    rfl

/-- Witness of `Run_count_positive`: the override 12, from the count 8. -/
theorem Run_count_positive_witness :
    0 < (Run failingWorld ⟨[], "12".toList, [], []⟩ 8).benchmarkCount ∧
    ∀ args ∈ passedArgs (Run failingWorld ⟨[], "12".toList, [], []⟩ 8).trace,
      ∃ N : Int, 0 < N ∧ args.take 4 = fixedArgs (fmtInt N) :=
  Run_count_positive failingWorld ⟨[], "12".toList, [], []⟩ 8 (by decide) (Or.inr (by decide))

end Mage
